import Mathlib

/-!
# Verification of the galorio art-portfolio core

Shallow embedding, in Lean 4, of the core algorithms of the galorio
repository:

* the CSV record parser of `galorio-static/scripts/build.js`
  (`parseCSVLine`, `parseCSVRecord`);
* the catalog-field derivations of `buildPortfolio` (availability,
  price extraction) and the corresponding derivation in the dynamic
  metadata processor;
* the slug normaliser `normalizeCollectionName` of `js/metadata.js`;
* the collection row-layout computation `setCollectionRowHeight` and the
  image-probe fallback of `js/gallery.js`;
* the zoom/pan/momentum viewer state machines of
  `galorio-static/js/artwork-detail.js` and of the enhanced detail page.

Machine numbers are modelled as rationals; JS strings as Lean `String`
(character lists); the DOM reads performed by the viewer
(`getBoundingClientRect`, viewport sizes) become explicit parameters.
-/

/-! ## CSV parsing (galorio-static/scripts/build.js) -/

/-- JS whitespace test used by `String.prototype.trim`
(space, tab, newline, carriage return, vertical tab, form feed). -/
def isJsWhitespace (c : Char) : Bool :=
  c = ' ' || c = '\t' || c = '\n' || c = '\x0d' || c = '\x0b' || c = '\x0c'

/-- `String.prototype.trim` on a character list: drop leading and trailing
whitespace. -/
def jsTrim (l : List Char) : List Char :=
  ((l.dropWhile isJsWhitespace).reverse.dropWhile isJsWhitespace).reverse

/-- The field-tokenisation loop of `parseCSVLine` (build.js lines 45-76).
`inQ` is the `inQuotes` flag, `cur` the accumulated current field in
reverse order.  A quote toggles `inQuotes`; a doubled quote inside quotes
emits one literal quote; a comma outside quotes ends the field (the code
pushes `current.trim()`); at the end of the line the last field is pushed. -/
def parseCSVLineAux : Bool → List Char → List Char → List String
  | _, cur, [] => [String.mk (jsTrim cur.reverse)]
  | true, cur, '"' :: '"' :: rest => parseCSVLineAux true ('"' :: cur) rest
  | true, cur, '"' :: rest => parseCSVLineAux false cur rest
  | false, cur, '"' :: rest => parseCSVLineAux true cur rest
  | false, cur, ',' :: rest =>
      String.mk (jsTrim cur.reverse) :: parseCSVLineAux false [] rest
  | inQ, cur, c :: rest => parseCSVLineAux inQ (c :: cur) rest

/-- `parseCSVLine` of build.js: split one (possibly joined) record into
trimmed field values, honouring quoting. -/
def parseCSVLine (line : String) : List String :=
  parseCSVLineAux false [] line.data

/-- Number of `"` characters in a line: `(record.match(/"/g) || []).length`. -/
def quoteCount (line : String) : Nat :=
  line.data.countP (fun c => c = '"')

/-- The joining loop of `parseCSVRecord` (build.js lines 89-93): while the
accumulated quote count `qc` is odd and a next physical line exists, append
`"\n" + nextLine` to the record and add its quote count. -/
def joinLoop (record : String) (qc : Nat) : List String → String × List String
  | [] => (record, [])
  | l :: ls =>
    if qc % 2 = 0 then (record, l :: ls)
    else joinLoop (record ++ "\n" ++ l) (qc + quoteCount l) ls

/-- `parseCSVRecord` of build.js on the suffix of physical lines starting at
`startIndex`: join lines while quote parity is odd, then tokenise the joined
record.  Returns the parsed values together with the unconsumed lines
(the source's `nextLineIndex`). -/
def parseCSVRecord : List String → List String × List String
  | [] => ([], [])
  | l :: ls =>
    let jr := joinLoop l (quoteCount l) ls
    (parseCSVLine jr.1, jr.2)

/-- The accumulation `record += '\n' + lines[currentIndex]` folded over a
list of continuation lines. -/
def joinedString (record : String) (ls : List String) : String :=
  ls.foldl (fun acc l => acc ++ "\n" ++ l) record

/-- Total quote count of a list of physical lines. -/
def qsum (ls : List String) : Nat :=
  (ls.map quoteCount).sum

theorem qsum_nil : qsum [] = 0 := rfl

theorem qsum_cons (l : String) (ls : List String) :
    qsum (l :: ls) = quoteCount l + qsum ls := by
  simp [qsum]

theorem joinedString_cons (r l : String) (ls : List String) :
    joinedString r (l :: ls) = joinedString (r ++ "\n" ++ l) ls := rfl

/-- Characterisation of the joining loop: it consumes the shortest prefix of
the continuation lines that restores even quote parity (or all of them), and
the accumulated record is the `'\n'`-join of the consumed lines. -/
theorem joinLoop_spec (ls : List String) :
    ∀ record qc, ∃ k, k ≤ ls.length ∧
      joinLoop record qc ls = (joinedString record (ls.take k), ls.drop k) ∧
      (∀ j, j < k → (qc + qsum (ls.take j)) % 2 = 1) ∧
      ((qc + qsum (ls.take k)) % 2 = 0 ∨ k = ls.length) := by
  induction ls with
  | nil =>
    intro record qc
    exact ⟨0, le_refl 0, rfl, fun j hj => absurd hj (Nat.not_lt_zero j), Or.inr rfl⟩
  | cons l ls ih =>
    intro record qc
    by_cases hq : qc % 2 = 0
    · refine ⟨0, Nat.zero_le _, ?_, fun j hj => absurd hj (Nat.not_lt_zero j), Or.inl ?_⟩
      · simp [joinLoop, hq, joinedString]
      · simpa [qsum_nil] using hq
    · obtain ⟨k, hk, heq, hodd, hstop⟩ := ih (record ++ "\n" ++ l) (qc + quoteCount l)
      refine ⟨k + 1, by simpa using Nat.succ_le_succ hk, ?_, ?_, ?_⟩
      · simpa [joinLoop, hq, joinedString_cons] using heq
      · intro j hj
        match j with
        | 0 => simpa [qsum_nil] using Nat.mod_two_ne_zero.mp hq
        | j' + 1 =>
          have := hodd j' (Nat.lt_of_succ_lt_succ hj)
          simpa [qsum_cons, Nat.add_assoc] using this
      · rcases hstop with h | h
        · exact Or.inl (by simpa [qsum_cons, Nat.add_assoc] using h)
        · exact Or.inr (by simp [h])

/-- C9: the multi-line record scanner `parseCSVRecord` joins physical lines
exactly while the running quote count over the accumulated lines is odd,
stops as soon as parity is restored or input ends, and then applies the field
tokeniser to the joined record. -/
theorem parseCSVRecord_quote_parity (l : String) (ls : List String) :
    ∃ k, k ≤ ls.length ∧
      parseCSVRecord (l :: ls) =
        (parseCSVLine (joinedString l (ls.take k)), ls.drop k) ∧
      (∀ j, j < k → (quoteCount l + qsum (ls.take j)) % 2 = 1) ∧
      ((quoteCount l + qsum (ls.take k)) % 2 = 0 ∨ k = ls.length) := by
  obtain ⟨k, hk, heq, hodd, hstop⟩ := joinLoop_spec ls l (quoteCount l)
  exact ⟨k, hk, by simp [parseCSVRecord, heq], hodd, hstop⟩

/-! ## Catalog building (build.js `buildPortfolio`, and the dynamic
metadata processor's CSV fallback) -/

/-- One parsed inventory row, with the case-sensitive columns read by the
builders (`Title, ID, Collection, Pricing, Dimensions, Size, x, Notes,
Extended description`).  Missing values are the empty string, as in
`row[header] = values[index] || ''`. -/
structure InventoryRow where
  Title : String
  ID : String
  Collection : String
  Pricing : String
  Dimensions : String
  Size : String
  Notes : String
  extendedDescription : String
  x : String
deriving DecidableEq

/-- Run of characters matching `[\d,]+` (used by the `/\$[\d,]+/` pattern). -/
def priceRun (l : List Char) : List Char :=
  l.takeWhile (fun c => c.isDigit || c = ',')

/-- First match of `/\$[\d,]+/`: a dollar sign followed by at least one
digit or comma, searched left to right. -/
def findDollarMatch : List Char → Option (List Char)
  | [] => none
  | c :: rest =>
    if c = '$' then
      if (priceRun rest).isEmpty then findDollarMatch rest
      else some ('$' :: priceRun rest)
    else findDollarMatch rest

/-- `extractPrice` of build.js: empty pricing gives `''`; else the first
dollar-amount match, else the raw pricing text. -/
def extractPrice (pricingText : String) : String :=
  if pricingText = "" then ""
  else
    match findDollarMatch pricingText.data with
    | some m => String.mk m
    | none => pricingText

/-- The scalar derived fields of a built artwork. -/
structure ArtworkFlags where
  available : Bool
  price : String
  featured : Bool
deriving DecidableEq

/-- The derivations of `buildPortfolio` (build.js lines 314-322):
`available: !!(row.Pricing && row.Pricing !== 'sold')` (a JS string is falsy
exactly when empty), `price: extractPrice(row.Pricing)`,
`featured: row.x === 'x'`. -/
def buildArtworkFields (r : InventoryRow) : ArtworkFlags :=
  { available := if r.Pricing = "" then false else decide (r.Pricing ≠ "sold")
    price := extractPrice r.Pricing
    featured := decide (r.x = "x") }

/-- The corresponding derivations in the dynamic metadata processor's CSV
fallback: `available: !!(row.Pricing && row.x !== 'sold')` — note that the
comparison against `'sold'` is made on the featured-marker column `x`, not on
`Pricing`.  (`featured: row.x === 'x' || row.featured === 'true'`; the
inventory schema has no `featured` column, so the second disjunct is false.) -/
def loadArtworkMetadataFields (r : InventoryRow) : ArtworkFlags :=
  { available := if r.Pricing = "" then false else decide (r.x ≠ "sold")
    price := extractPrice r.Pricing
    featured := decide (r.x = "x") }

/-- A sold inventory row: priced as the literal sold marker, not featured. -/
def soldRow : InventoryRow :=
  { Title := "Abstract Form", ID := "ABS-0001", Collection := "COLL-0001",
    Pricing := "sold", Dimensions := "30x24", Size := "medium",
    Notes := "", extendedDescription := "", x := "" }

/-- C4: on the row whose `Pricing` field is the literal string `sold`, the
static build script derives `available = false` as the claim states, but the
dynamic metadata processor — which compares the featured-marker column `x`
against `'sold'` instead of the pricing field — derives `available = true`,
contradicting the claimed rule. -/
theorem available_sold_row_divergence :
    soldRow.Pricing = "sold" ∧
    (buildArtworkFields soldRow).available = false ∧
    (loadArtworkMetadataFields soldRow).available = true := by
  decide

/-! ## Slug normalisation (js/metadata.js `normalizeCollectionName`) -/

/-- A lowercase ASCII letter or digit: the character class `[a-z0-9]`. -/
def isAsciiAlphanumLower (c : Char) : Bool :=
  ('a' ≤ c && c ≤ 'z') || ('0' ≤ c && c ≤ '9')

/-- `.replace(/[^a-z0-9]/g, '-')` on one (already lowercased) character. -/
def slugMapChar (c : Char) : Char :=
  if isAsciiAlphanumLower c then c else '-'

/-- The replace of the global pattern "two or more hyphens" by a single
hyphen: collapse every run of two or more hyphens into one (runs of length
one are untouched, so every run ends up of length one).  The flag records
whether the previously emitted character was a hyphen. -/
def collapseDashesAux : Bool → List Char → List Char
  | _, [] => []
  | true, c :: rest =>
    if c = '-' then collapseDashesAux true rest
    else c :: collapseDashesAux false rest
  | false, c :: rest =>
    if c = '-' then '-' :: collapseDashesAux true rest
    else c :: collapseDashesAux false rest

def collapseDashes (l : List Char) : List Char :=
  collapseDashesAux false l

/-- The leading half of the edge-hyphen strip: drop one leading hyphen. -/
def trimLeadDash : List Char → List Char
  | [] => []
  | c :: rest => if c = '-' then rest else c :: rest

/-- The trailing half of the edge-hyphen strip: drop one trailing hyphen. -/
def trimTrailDash : List Char → List Char
  | [] => []
  | [c] => if c = '-' then [] else [c]
  | c :: rest => c :: trimTrailDash rest

/-- `normalizeCollectionName` of js/metadata.js: falsy (empty) input maps to
`uncategorized`; otherwise lowercase (modelled on ASCII), replace every
character outside `[a-z0-9]` by `-`, collapse repeated `-`, and strip one
leading and one trailing `-`. -/
def normalizeCollectionName (collectionName : String) : String :=
  if collectionName = "" then "uncategorized"
  else
    String.mk
      (trimTrailDash (trimLeadDash (collapseDashes
        ((collectionName.data.map Char.toLower).map slugMapChar))))

/-- A lowercase alphanumeric or a hyphen. -/
def slugOrDash (c : Char) : Bool :=
  isAsciiAlphanumLower c || c = '-'

/-- Two adjacent characters are not both hyphens. -/
abbrev noDashPair (a b : Char) : Prop := ¬(a = '-' ∧ b = '-')

/-- Membership in the regular language `[a-z0-9]+(-[a-z0-9]+)*`: nonempty,
every character a lowercase alphanumeric or `-`, first and last characters
alphanumeric, and no two adjacent hyphens. -/
def slugPattern : List Char → Bool
  | [] => false
  | c :: cs =>
    isAsciiAlphanumLower c && isAsciiAlphanumLower (cs.getLastD c) &&
    (c :: cs).all slugOrDash &&
    decide (List.Chain' noDashPair (c :: cs))

/-- `generateId` of build.js (lines 210-213): falsy (empty) input yields
`'artwork-' + Date.now()` — the current timestamp is the explicit parameter
`now` — and any other input is lowercased (modelled on ASCII) with every
character outside `[a-z0-9]` replaced by `-`, with no hyphen collapsing and
no edge trimming. -/
def generateId (now : Nat) (input : String) : String :=
  if input = "" then "artwork-" ++ toString now
  else String.mk ((input.data.map Char.toLower).map slugMapChar)

/-- C5 counterexample: the whitespace-only (hence non-empty) title `" "`
normalises under `normalizeCollectionName` to the empty string, which
neither matches `[a-z0-9]+(-[a-z0-9]+)*` nor equals `uncategorized`; and the
other cited slug implementation, build.js's `generateId`, maps the
alphanumeric-containing title `"Hello, World!"` to `"hello--world-"` —
repeated and trailing hyphens, so no pattern match — while its empty-input
result is `'artwork-' + Date.now()`, not `uncategorized`. -/
theorem slug_counterexamples :
    (normalizeCollectionName " " = "" ∧
      slugPattern (normalizeCollectionName " ").data = false ∧
      normalizeCollectionName " " ≠ "uncategorized") ∧
    (generateId 0 "Hello, World!" = "hello--world-" ∧
      slugPattern (generateId 0 "Hello, World!").data = false ∧
      generateId 0 "" ≠ "uncategorized") := by
  decide

theorem isAsciiAlphanumLower_ne_dash {c : Char}
    (h : isAsciiAlphanumLower c = true) : c ≠ '-' := by
  intro hc
  subst hc
  exact absurd h (by decide)

theorem slugMapChar_slugOrDash (c : Char) : slugOrDash (slugMapChar c) = true := by
  unfold slugMapChar slugOrDash
  by_cases h : isAsciiAlphanumLower c = true <;> simp [h]

theorem collapseDashesAux_all {p : Char → Bool} (hp : p '-' = true) :
    ∀ (l : List Char) (b : Bool) (c : Char), (∀ x ∈ l, p x = true) →
      c ∈ collapseDashesAux b l → p c = true := by
  intro l
  induction l with
  | nil =>
    intro b c _ hc
    cases b <;> simp [collapseDashesAux] at hc
  | cons d rest ih =>
    intro b c hall hc
    have hrest : ∀ x ∈ rest, p x = true :=
      fun x hx => hall x (List.mem_cons_of_mem _ hx)
    have hd0 : p d = true := hall d (List.mem_cons_self _ _)
    rcases eq_or_ne d '-' with hd | hd
    · subst hd
      cases b with
      | true =>
        rw [show collapseDashesAux true ('-' :: rest) = collapseDashesAux true rest
          from by simp [collapseDashesAux]] at hc
        exact ih true c hrest hc
      | false =>
        rw [show collapseDashesAux false ('-' :: rest) =
            '-' :: collapseDashesAux true rest from by simp [collapseDashesAux]] at hc
        rcases List.mem_cons.mp hc with h | h
        · rw [h]; exact hp
        · exact ih true c hrest h
    · cases b with
      | true =>
        rw [show collapseDashesAux true (d :: rest) =
            d :: collapseDashesAux false rest from by simp [collapseDashesAux, hd]] at hc
        rcases List.mem_cons.mp hc with h | h
        · rw [h]; exact hd0
        · exact ih false c hrest h
      | false =>
        rw [show collapseDashesAux false (d :: rest) =
            d :: collapseDashesAux false rest from by simp [collapseDashesAux, hd]] at hc
        rcases List.mem_cons.mp hc with h | h
        · rw [h]; exact hd0
        · exact ih false c hrest h

theorem collapseDashesAux_chain (l : List Char) :
    (List.Chain' noDashPair (collapseDashesAux true l) ∧
      (∀ x ∈ (collapseDashesAux true l).head?, x ≠ '-')) ∧
    List.Chain' noDashPair (collapseDashesAux false l) := by
  induction l with
  | nil =>
    refine ⟨⟨?_, ?_⟩, ?_⟩ <;> simp [collapseDashesAux]
  | cons d rest ih =>
    obtain ⟨⟨hct, hht⟩, hcf⟩ := ih
    rcases eq_or_ne d '-' with hd | hd
    · subst hd
      refine ⟨⟨?_, ?_⟩, ?_⟩
      · simpa only [collapseDashesAux, if_pos rfl] using hct
      · simpa only [collapseDashesAux, if_pos rfl] using hht
      · simp only [collapseDashesAux, if_pos rfl]
        refine List.chain'_cons'.mpr ⟨?_, hct⟩
        intro y hy hcontra
        exact hht y hy hcontra.2
    · have hchain : List.Chain' noDashPair (d :: collapseDashesAux false rest) :=
        List.chain'_cons'.mpr ⟨fun y _ hcontra => hd hcontra.1, hcf⟩
      refine ⟨⟨?_, ?_⟩, ?_⟩
      · simpa only [collapseDashesAux, if_neg hd] using hchain
      · simp only [collapseDashesAux, if_neg hd, List.head?_cons, Option.mem_def,
          Option.some.injEq]
        intro x hx
        exact hx ▸ hd
      · simpa only [collapseDashesAux, if_neg hd] using hchain

theorem collapseDashesAux_mem_alnum :
    ∀ (l : List Char) (b : Bool) (c : Char), isAsciiAlphanumLower c = true →
      c ∈ l → c ∈ collapseDashesAux b l := by
  intro l
  induction l with
  | nil =>
    intro b c _ hc
    cases hc
  | cons d rest ih =>
    intro b c hal hc
    rcases List.mem_cons.mp hc with rfl | hmem
    · have hd : c ≠ '-' := isAsciiAlphanumLower_ne_dash hal
      cases b <;> simp only [collapseDashesAux, if_neg hd] <;>
        exact List.mem_cons_self _ _
    · rcases eq_or_ne d '-' with hd | hd
      · subst hd
        cases b with
        | true =>
          simp only [collapseDashesAux, if_pos rfl]
          exact ih true c hal hmem
        | false =>
          simp only [collapseDashesAux, if_pos rfl]
          exact List.mem_cons_of_mem _ (ih true c hal hmem)
      · cases b <;> simp only [collapseDashesAux, if_neg hd] <;>
          exact List.mem_cons_of_mem _ (ih false c hal hmem)

theorem trimLeadDash_props {p : Char → Bool} (l : List Char)
    (hall : ∀ x ∈ l, p x = true) (hch : List.Chain' noDashPair l) :
    (∀ x ∈ trimLeadDash l, p x = true) ∧
    List.Chain' noDashPair (trimLeadDash l) ∧
    (∀ x ∈ (trimLeadDash l).head?, x ≠ '-') ∧
    (∀ c, isAsciiAlphanumLower c = true → c ∈ l → c ∈ trimLeadDash l) := by
  cases l with
  | nil => simp [trimLeadDash]
  | cons d rest =>
    rcases eq_or_ne d '-' with hd | hd
    · subst hd
      simp only [trimLeadDash, if_pos rfl]
      obtain ⟨hhead, htail⟩ := List.chain'_cons'.mp hch
      refine ⟨fun x hx => hall x (List.mem_cons_of_mem _ hx), htail, ?_, ?_⟩
      · intro x hx hx'
        exact hhead x hx ⟨rfl, hx'⟩
      · intro c hcal hc
        rcases List.mem_cons.mp hc with rfl | h
        · exact absurd hcal (by decide)
        · exact h
    · simp only [trimLeadDash, if_neg hd]
      refine ⟨hall, hch, ?_, fun c _ hc => hc⟩
      intro x hx
      simp only [List.head?_cons, Option.mem_def, Option.some.injEq] at hx
      exact hx ▸ hd

theorem trimTrailDash_eq_nil (l : List Char) :
    trimTrailDash l = [] ↔ l = [] ∨ l = ['-'] := by
  match l with
  | [] => simp [trimTrailDash]
  | [c] =>
    by_cases hc : c = '-' <;> simp [trimTrailDash, hc]
  | c :: d :: rest => simp [trimTrailDash]

theorem trimTrailDash_all {p : Char → Bool} :
    ∀ l : List Char, (∀ x ∈ l, p x = true) → ∀ x ∈ trimTrailDash l, p x = true := by
  intro l
  induction l with
  | nil => intro _ x hx; simp [trimTrailDash] at hx
  | cons c t ih =>
    intro hall x hx
    cases t with
    | nil =>
      by_cases hc : c = '-' <;> simp [trimTrailDash, hc] at hx
      exact hx ▸ hall c (List.mem_cons_self _ _)
    | cons d rest =>
      simp only [trimTrailDash, List.mem_cons] at hx
      rcases hx with rfl | hx
      · exact hall x (List.mem_cons_self _ _)
      · exact ih (fun y hy => hall y (List.mem_cons_of_mem _ hy)) x hx

theorem trimTrailDash_head (d : Char) (rest : List Char) :
    (trimTrailDash (d :: rest)).head? = some d ∨ trimTrailDash (d :: rest) = [] := by
  cases rest with
  | nil =>
    by_cases hd : d = '-' <;> simp [trimTrailDash, hd]
  | cons e rest' => simp [trimTrailDash]

theorem trimTrailDash_chain :
    ∀ l : List Char, List.Chain' noDashPair l →
      List.Chain' noDashPair (trimTrailDash l) := by
  intro l
  induction l with
  | nil => intro _; simp [trimTrailDash]
  | cons c t ih =>
    intro hch
    cases t with
    | nil =>
      by_cases hc : c = '-' <;> simp [trimTrailDash, hc]
    | cons d rest =>
      obtain ⟨hhead, htail⟩ := List.chain'_cons'.mp hch
      simp only [trimTrailDash]
      refine List.chain'_cons'.mpr ⟨?_, ih htail⟩
      intro y hy
      rcases trimTrailDash_head d rest with hh | hh
      · rw [hh] at hy
        simp only [Option.mem_def, Option.some.injEq] at hy
        exact hy ▸ hhead d (by simp)
      · rw [hh] at hy
        simp at hy

theorem trimTrailDash_headNonDash :
    ∀ l : List Char, (∀ x ∈ l.head?, x ≠ '-') →
      ∀ x ∈ (trimTrailDash l).head?, x ≠ '-' := by
  intro l
  cases l with
  | nil => intro h x hx; simp [trimTrailDash] at hx
  | cons c t =>
    intro h x hx
    have hc : c ≠ '-' := h c (by simp)
    cases t with
    | nil =>
      simp only [trimTrailDash, if_neg hc, List.head?_cons, Option.mem_def,
        Option.some.injEq] at hx
      exact hx ▸ hc
    | cons d rest =>
      simp only [trimTrailDash, List.head?_cons, Option.mem_def,
        Option.some.injEq] at hx
      exact hx ▸ hc

theorem trimTrailDash_mem_alnum :
    ∀ (l : List Char) (c : Char), isAsciiAlphanumLower c = true →
      c ∈ l → c ∈ trimTrailDash l := by
  intro l
  induction l with
  | nil => intro c _ hc; cases hc
  | cons c0 t ih =>
    intro c hal hc
    cases t with
    | nil =>
      rcases List.mem_cons.mp hc with rfl | h
      · simp [trimTrailDash, isAsciiAlphanumLower_ne_dash hal]
      · cases h
    | cons d rest =>
      simp only [trimTrailDash, List.mem_cons]
      rcases List.mem_cons.mp hc with rfl | h
      · exact Or.inl rfl
      · exact Or.inr (ih c hal h)

theorem trimTrailDash_lastNonDash :
    ∀ l : List Char, List.Chain' noDashPair l →
      ∀ x ∈ (trimTrailDash l).getLast?, x ≠ '-' := by
  intro l
  induction l with
  | nil => intro _ x hx; simp [trimTrailDash] at hx
  | cons c t ih =>
    intro hch x hx
    cases t with
    | nil =>
      by_cases hc : c = '-' <;> simp [trimTrailDash, hc] at hx
      exact hx ▸ hc
    | cons d rest =>
      obtain ⟨hhead, htail⟩ := List.chain'_cons'.mp hch
      simp only [trimTrailDash] at hx
      rcases heq : trimTrailDash (d :: rest) with _ | ⟨u, us⟩
      · have : d :: rest = [] ∨ d :: rest = ['-'] := (trimTrailDash_eq_nil _).mp heq
        rcases this with h | h
        · cases h
        · have hd : d = '-' := by
            injection h with h1 _
          have hcne : c ≠ '-' := by
            intro hcc
            exact hhead d (by simp) ⟨hcc, hd⟩
          rw [heq] at hx
          simp only [List.getLast?_singleton, Option.mem_def, Option.some.injEq] at hx
          exact hx ▸ hcne
      · rw [heq, List.getLast?_cons_cons] at hx
        rw [heq] at ih
        exact ih htail x hx

theorem slugOrDash_elim {x : Char} (h : slugOrDash x = true) (hx : x ≠ '-') :
    isAsciiAlphanumLower x = true := by
  unfold slugOrDash at h
  rcases Bool.or_eq_true_iff.mp h with h1 | h1
  · exact h1
  · exact absurd (of_decide_eq_true h1) hx

theorem getLastD_mem (cs : List Char) : ∀ c : Char, cs.getLastD c ∈ c :: cs := by
  induction cs with
  | nil => intro c; simp [List.getLastD]
  | cons d cs' ih =>
    intro c
    have hstep : (d :: cs').getLastD c = cs'.getLastD d := by
      simp [List.getLastD_eq_getLast?, List.getLast?_cons]
    rw [hstep]
    exact List.mem_cons_of_mem _ (ih d)

theorem slugPattern_of_props (l : List Char) (hne : l ≠ [])
    (hall : ∀ x ∈ l, slugOrDash x = true)
    (hch : List.Chain' noDashPair l)
    (hhead : ∀ x ∈ l.head?, x ≠ '-')
    (hlast : ∀ x ∈ l.getLast?, x ≠ '-') :
    slugPattern l = true := by
  cases l with
  | nil => exact absurd rfl hne
  | cons c cs =>
    have hc : c ≠ '-' := hhead c (by simp)
    have hcal : isAsciiAlphanumLower c = true :=
      slugOrDash_elim (hall c (List.mem_cons_self _ _)) hc
    have hlastval : (c :: cs).getLast? = some (cs.getLastD c) := by
      simp [List.getLast?_cons, List.getLastD_eq_getLast?]
    have hlne : cs.getLastD c ≠ '-' := by
      apply hlast
      rw [hlastval]
      rfl
    have hlal : isAsciiAlphanumLower (cs.getLastD c) = true :=
      slugOrDash_elim (hall _ (getLastD_mem cs c)) hlne
    simp only [slugPattern, hcal, hlal, Bool.true_and, Bool.and_eq_true,
      List.all_eq_true, decide_eq_true_eq]
    exact ⟨hall, hch⟩

/-- Helper for the slug claim: `normalizeCollectionName` maps the empty
title to `uncategorized`, and any title containing at least one character
that lowercases into `[a-z0-9]` to a slug matching
`[a-z0-9]+(-[a-z0-9]+)*`. -/
theorem normalizeCollectionName_amended (s : String) :
    (s = "" → normalizeCollectionName s = "uncategorized") ∧
    ((∃ c ∈ s.data, isAsciiAlphanumLower c.toLower = true) →
      slugPattern (normalizeCollectionName s).data = true) := by
  constructor
  · intro h
    subst h
    rfl
  · rintro ⟨c, hc, hcal⟩
    have hs : s ≠ "" := by
      intro h
      subst h
      cases hc
    have hform : normalizeCollectionName s =
        String.mk (trimTrailDash (trimLeadDash (collapseDashes
          ((s.data.map Char.toLower).map slugMapChar)))) := by
      simp [normalizeCollectionName, hs]
    set m := (s.data.map Char.toLower).map slugMapChar with hm
    have hmall : ∀ x ∈ m, slugOrDash x = true := by
      intro x hx
      rw [hm] at hx
      rcases List.mem_map.mp hx with ⟨d, _, rfl⟩
      exact slugMapChar_slugOrDash d
    have hcmem : c.toLower ∈ m := by
      rw [hm]
      refine List.mem_map.mpr ⟨c.toLower, List.mem_map.mpr ⟨c, hc, rfl⟩, ?_⟩
      simp [slugMapChar, hcal]
    have huch : List.Chain' noDashPair (collapseDashes m) :=
      (collapseDashesAux_chain m).2
    have huall : ∀ x ∈ collapseDashes m, slugOrDash x = true :=
      fun x hx => collapseDashesAux_all (by decide) m false x hmall hx
    have hcu : c.toLower ∈ collapseDashes m :=
      collapseDashesAux_mem_alnum m false c.toLower hcal hcmem
    obtain ⟨hvall, hvch, hvhead, hvmem⟩ :=
      trimLeadDash_props (collapseDashes m) huall huch
    have hcv : c.toLower ∈ trimLeadDash (collapseDashes m) :=
      hvmem c.toLower hcal hcu
    have hcw : c.toLower ∈ trimTrailDash (trimLeadDash (collapseDashes m)) :=
      trimTrailDash_mem_alnum _ c.toLower hcal hcv
    have hwne : trimTrailDash (trimLeadDash (collapseDashes m)) ≠ [] := by
      intro h
      rw [h] at hcw
      cases hcw
    rw [hform]
    exact slugPattern_of_props _ hwne
      (trimTrailDash_all _ hvall)
      (trimTrailDash_chain _ hvch)
      (trimTrailDash_headNonDash _ hvhead)
      (trimTrailDash_lastNonDash _ hvch)

/-- C5 amended: of the two cited slug implementations,
`normalizeCollectionName` maps the empty title to `uncategorized` and any
title containing at least one character that lowercases into `[a-z0-9]` to a
slug matching `[a-z0-9]+(-[a-z0-9]+)*` (for non-empty titles with no such
character it returns the empty string — see the counterexample); build.js's
`generateId` satisfies neither clause: on empty input it returns
`'artwork-' + Date.now()`, and on non-empty input it guarantees only that
every output character is a lowercase alphanumeric or a hyphen — hyphen runs
and edge hyphens are not cleaned up, so its output need not match the
pattern. -/
theorem slug_amended (s : String) (now : Nat) :
    (s = "" → normalizeCollectionName s = "uncategorized") ∧
    ((∃ c ∈ s.data, isAsciiAlphanumLower c.toLower = true) →
      slugPattern (normalizeCollectionName s).data = true) ∧
    (s = "" → generateId now s = "artwork-" ++ toString now) ∧
    (s ≠ "" → ∀ c ∈ (generateId now s).data, slugOrDash c = true) := by
  refine ⟨(normalizeCollectionName_amended s).1,
    (normalizeCollectionName_amended s).2, ?_, ?_⟩
  · intro h
    simp [generateId, h]
  · intro hs c hc
    rw [show generateId now s = String.mk ((s.data.map Char.toLower).map slugMapChar)
      from by simp [generateId, hs]] at hc
    have hc' : c ∈ (s.data.map Char.toLower).map slugMapChar := hc
    rcases List.mem_map.mp hc' with ⟨d, _, rfl⟩
    exact slugMapChar_slugOrDash d

/-- Witness for the amended C5 statement at concrete inputs. -/
theorem slug_amended_witness :
    normalizeCollectionName "" = "uncategorized" ∧
    slugPattern (normalizeCollectionName "Hello, World!").data = true ∧
    generateId 7 "" = "artwork-" ++ toString 7 ∧
    (∀ c ∈ (generateId 7 "Hello, World!").data, slugOrDash c = true) :=
  ⟨(slug_amended "" 7).1 rfl,
   (slug_amended "Hello, World!" 7).2.1 ⟨'H', by decide, by decide⟩,
   (slug_amended "" 7).2.2.1 rfl,
   (slug_amended "Hello, World!" 7).2.2.2 (by decide)⟩


/-! ## Collection row layout and image probes (js/gallery.js) -/

/-- A settled probe result: intrinsic width, height, and their ratio. -/
structure ImageDim where
  width : ℚ
  height : ℚ
  aspectRatio : ℚ
deriving DecidableEq

/-- Outcome of loading one image element. -/
inductive LoadOutcome
  | loaded (naturalWidth naturalHeight : ℚ)
  | failed
deriving DecidableEq

/-- The handlers successively assigned to the image element's `onerror` slot
in `createCollectionArtworkWithPromise`: first the Promise executor's
handler, which would resolve `{width: 300, height: 200, aspectRatio: 1.5}`
(gallery.js lines 708-716); then, at line 720, a handler that only swaps the
`src` to the inline "Image Not Found" placeholder SVG. -/
inductive ErrHandler
  | executorFallback
  | placeholderSwap
deriving DecidableEq

/-- The `onerror` handler actually installed when setup finishes: property
assignment replaces the handler, so the line-720 reassignment overwrites the
executor's fallback-resolving handler before any load event can fire. -/
def installedOnError : ErrHandler :=
  ErrHandler.placeholderSwap

/-- Dispatching a load failure against an `onerror` handler.  The executor's
(overwritten) handler would resolve the coded 300x200/1.5 fallback.  The
installed handler swaps in the placeholder SVG — declared 350 wide and 250
high — which, being a data URI, loads and fires the executor's `onload`,
resolving with the placeholder's natural dimensions and their ratio. -/
def dispatchFailure : ErrHandler → Except String ImageDim
  | .executorFallback => .ok ⟨300, 200, 3 / 2⟩
  | .placeholderSwap => .ok ⟨350, 250, 350 / 250⟩

/-- The per-artwork probe promise of `createCollectionArtworkWithPromise`
(gallery.js lines 696-722): on `onload` it resolves with the natural
dimensions; on failure the installed `onerror` handler runs. -/
def probeResolve : LoadOutcome → Except String ImageDim
  | .loaded w h => .ok ⟨w, h, w / h⟩
  | .failed => dispatchFailure installedOnError

/-- C8 counterexample: on load failure the probe promise resolves with the
placeholder SVG's dimensions 350 x 250 (aspect ratio 1.4), not with the
claimed fallback `{width: 300, height: 200, aspectRatio: 1.5}` — the
handler that would have resolved the coded fallback is overwritten at
gallery.js line 720. -/
theorem probeResolve_failed_placeholder :
    probeResolve .failed = Except.ok ⟨350, 250, 7 / 5⟩ ∧
    probeResolve .failed ≠ Except.ok ⟨300, 200, 3 / 2⟩ := by
  have hr : (350 : ℚ) / 250 = 7 / 5 := by norm_num
  constructor
  · show Except.ok (⟨350, 250, 350 / 250⟩ : ImageDim) = Except.ok ⟨350, 250, 7 / 5⟩
    rw [hr]
  · show Except.ok (⟨350, 250, 350 / 250⟩ : ImageDim) ≠ Except.ok ⟨300, 200, 3 / 2⟩
    intro h
    simp only [Except.ok.injEq, ImageDim.mk.injEq] at h
    norm_num at h

/-- C8 amended: the probe promise still never rejects — it resolves for
every outcome — but on load failure it resolves (through `onload` of the
swapped-in placeholder SVG) with the placeholder's dimensions width 350,
height 250, aspect ratio 350/250; the coded 300x200/1.5 fallback path is
dead. -/
theorem probeResolve_amended :
    (∀ o : LoadOutcome, ∃ d : ImageDim, probeResolve o = Except.ok d) ∧
    probeResolve .failed = Except.ok ⟨350, 250, 350 / 250⟩ := by
  constructor
  · intro o
    cases o <;> exact ⟨_, rfl⟩
  · rfl

/-- `heights = imageDimensions.map(dim => standardWidth / dim.aspectRatio)`
with `standardWidth = 250` (gallery.js lines 830-831). -/
def candidateHeights (dims : List ImageDim) : List ℚ :=
  dims.map (fun d => 250 / d.aspectRatio)

/-- `Math.max(...list)`: the maximum of a list of numbers, with the empty
maximum being minus infinity (modelled by `WithBot`). -/
def jsMaxList (l : List ℚ) : WithBot ℚ :=
  l.foldr (fun (x : ℚ) (m : WithBot ℚ) => max ((x : WithBot ℚ)) m) ⊥

/-- `Math.min(Math.max(maxHeight, 150), 400)` (gallery.js line 835). -/
def clampedHeightW (dims : List ImageDim) : WithBot ℚ :=
  min (max (jsMaxList (candidateHeights dims)) ((150 : ℚ) : WithBot ℚ))
    ((400 : ℚ) : WithBot ℚ)

/-- The clamped row height as a rational; the default is never used because
clamping against 150 rules out minus infinity. -/
def rowHeight (dims : List ImageDim) : ℚ :=
  (clampedHeightW dims).unbot' 150

/-- `setCollectionRowHeight`: the row height together with the
width/height pair assigned to each artwork element
(`element.style.width = clampedHeight * aspectRatio`,
`element.style.height = clampedHeight`, gallery.js lines 853-866). -/
def setCollectionRowHeight (dims : List ImageDim) : ℚ × List (ℚ × ℚ) :=
  (rowHeight dims,
   dims.map (fun d => (rowHeight dims * d.aspectRatio, rowHeight dims)))

theorem jsMaxList_cons (x : ℚ) (l : List ℚ) :
    jsMaxList (x :: l) = max (x : WithBot ℚ) (jsMaxList l) := rfl

theorem jsMaxList_coe (l : List ℚ) :
    ∀ a : ℚ, max (a : WithBot ℚ) (jsMaxList l) = ((l.foldl max a : ℚ) : WithBot ℚ) := by
  induction l with
  | nil =>
    intro a
    exact max_eq_left bot_le
  | cons b l ih =>
    intro a
    rw [jsMaxList_cons, ← max_assoc, ← WithBot.coe_max, ih (max a b)]
    rfl

/-- The row height of a nonempty dimension list is the clamp of the maximal
candidate height. -/
theorem rowHeight_cons (d : ImageDim) (ds : List ImageDim) :
    rowHeight (d :: ds) =
      min (max ((candidateHeights ds).foldl max (250 / d.aspectRatio)) 150) 400 := by
  unfold rowHeight clampedHeightW
  rw [show candidateHeights (d :: ds) =
      (250 / d.aspectRatio) :: candidateHeights ds from rfl]
  rw [jsMaxList_cons, jsMaxList_coe, ← WithBot.coe_max, ← WithBot.coe_min]
  rfl

/-- C1: for a collection whose probes all settled (nonempty dimension list),
the computed row height is `clamp(max of 250 / aspectRatio, 150, 400)`, it
lies in `[150, 400]`, every element receives exactly this height, and element
`i` receives width `rowHeight * aspectRatio i`. -/
theorem setCollectionRowHeight_spec (d : ImageDim) (ds : List ImageDim) :
    (setCollectionRowHeight (d :: ds)).1 =
      min (max ((candidateHeights ds).foldl max (250 / d.aspectRatio)) 150) 400 ∧
    150 ≤ (setCollectionRowHeight (d :: ds)).1 ∧
    (setCollectionRowHeight (d :: ds)).1 ≤ 400 ∧
    (setCollectionRowHeight (d :: ds)).2 =
      (d :: ds).map (fun dim =>
        ((setCollectionRowHeight (d :: ds)).1 * dim.aspectRatio,
          (setCollectionRowHeight (d :: ds)).1)) ∧
    (∀ p ∈ (setCollectionRowHeight (d :: ds)).2,
      p.2 = (setCollectionRowHeight (d :: ds)).1) := by
  refine ⟨rowHeight_cons d ds, ?_, ?_, rfl, ?_⟩
  · rw [show (setCollectionRowHeight (d :: ds)).1 = rowHeight (d :: ds) from rfl,
      rowHeight_cons]
    exact le_min (le_max_right _ _) (by norm_num)
  · rw [show (setCollectionRowHeight (d :: ds)).1 = rowHeight (d :: ds) from rfl,
      rowHeight_cons]
    exact min_le_right _ _
  · intro p hp
    rcases List.mem_map.mp hp with ⟨dim, _, rfl⟩
    rfl

/-- C6: the computed row height depends only on the multiset of settled
probe dimensions, not on their order: permuting the list leaves the row
height unchanged. -/
theorem rowHeight_perm_invariant (l₁ l₂ : List ImageDim) (h : l₁.Perm l₂) :
    rowHeight l₁ = rowHeight l₂ := by
  have hmax : jsMaxList (candidateHeights l₁) = jsMaxList (candidateHeights l₂) := by
    unfold jsMaxList candidateHeights
    exact @List.Perm.foldr_eq ℚ (WithBot ℚ) (fun x m => max (↑x) m) _ _
      ⟨fun a b c => by rw [max_left_comm]⟩
      (h.map (fun d : ImageDim => 250 / d.aspectRatio)) ⊥
  unfold rowHeight clampedHeightW
  rw [hmax]

def dimA : ImageDim := ⟨300, 200, 3 / 2⟩

def dimB : ImageDim := ⟨100, 400, 1 / 4⟩

/-- Witness: a concrete two-element permutation gives the same row height. -/
theorem rowHeight_perm_invariant_witness :
    rowHeight [dimA, dimB] = rowHeight [dimB, dimA] :=
  rowHeight_perm_invariant [dimA, dimB] [dimB, dimA] (List.Perm.swap dimB dimA [])

/-! ## Viewer interaction engines

Two implementations exist: the basic detail page
(galorio-static/js/artwork-detail.js) whose drag handler applies no offset
clamp, and the enhanced detail page whose drag and momentum handlers route
the offset through `constrainImagePosition`.  DOM geometry reads
(`getBoundingClientRect` of the image and of the viewport) become the fixed
environment `ViewEnv`; event timestamps and pointer positions are operation
arguments. -/

structure ViewEnv where
  imgW : ℚ
  imgH : ℚ
  viewW : ℚ
  viewH : ℚ
deriving DecidableEq

/-- `Math.max(0, (scaledWidth - viewportRect.width) / 2)` with
`scaledWidth = imageRect.width * zoomLevel`. -/
def maxOffsetX (env : ViewEnv) (zoom : ℚ) : ℚ :=
  max 0 ((env.imgW * zoom - env.viewW) / 2)

/-- `Math.max(0, (scaledHeight - viewportRect.height) / 2)`. -/
def maxOffsetY (env : ViewEnv) (zoom : ℚ) : ℚ :=
  max 0 ((env.imgH * zoom - env.viewH) / 2)

/-- `constrainImagePosition` of the enhanced viewer: at zoom at most 1 the
offset snaps to the origin; otherwise each axis is clamped into
`[-maxOffset, maxOffset]` via `Math.max(-m, Math.min(m, offset))`. -/
def constrainImagePosition (env : ViewEnv) (zoom : ℚ) (off : ℚ × ℚ) : ℚ × ℚ :=
  if zoom ≤ 1 then (0, 0)
  else
    (max (-(maxOffsetX env zoom)) (min (maxOffsetX env zoom) off.1),
     max (-(maxOffsetY env zoom)) (min (maxOffsetY env zoom) off.2))

/-- Squared magnitude of a velocity vector; the source compares
`Math.sqrt(vx*vx + vy*vy)` against nonnegative thresholds, which is
equivalent to comparing this square against the squared threshold. -/
def speedSq (v : ℚ × ℚ) : ℚ :=
  v.1 * v.1 + v.2 * v.2

/-- State of the enhanced viewer (the module-level mutable variables of the
enhanced artwork-detail script). -/
structure EViewer where
  zoomLevel : ℚ
  imageOffset : ℚ × ℚ
  velocity : ℚ × ℚ
  isDragging : Bool
  dragStart : ℚ × ℚ
  lastDragPosition : ℚ × ℚ
  lastDragTime : ℚ
  momentumActive : Bool
  images : List String
  currentImageIndex : Nat
  imageSrc : String
deriving DecidableEq

/-- Cancelling the in-flight momentum animation and zeroing the velocity, as
done at the top of every zoom handler. -/
def cancelMomentum (s : EViewer) : EViewer :=
  { s with momentumActive := false, velocity := (0, 0) }

/-- Enhanced zoom-in click: `zoomLevel = Math.min(zoomLevel * 1.3, 5)`, then
the offset is re-constrained at the new zoom. -/
def ezoomInClick (env : ViewEnv) (s : EViewer) : EViewer :=
  let s1 := cancelMomentum s
  let z := min (s1.zoomLevel * (13 / 10)) 5
  { s1 with zoomLevel := z,
            imageOffset := constrainImagePosition env z s1.imageOffset }

/-- Enhanced zoom-out click: `newZoomLevel = Math.max(zoomLevel / 1.3, 0.5)`;
an offset reset when the new zoom is at most 1, otherwise a re-constrain that
the source performs before `zoomLevel` is updated (so at the old zoom). -/
def ezoomOutClick (env : ViewEnv) (s : EViewer) : EViewer :=
  let s1 := cancelMomentum s
  let newZ := max (s1.zoomLevel / (13 / 10)) (1 / 2)
  let off := if newZ ≤ 1 then ((0 : ℚ), (0 : ℚ))
    else constrainImagePosition env s1.zoomLevel s1.imageOffset
  { s1 with zoomLevel := newZ, imageOffset := off }

/-- Enhanced wheel zoom: factor 1.1 for scroll up, 0.9 for scroll down,
clamped into `[0.5, 5]`; offset reset at new zoom at most 1, else constrained
at the old zoom. -/
def ewheel (env : ViewEnv) (deltaYNeg : Bool) (s : EViewer) : EViewer :=
  let s1 := cancelMomentum s
  let delta : ℚ := if deltaYNeg then 11 / 10 else 9 / 10
  let newZ := max (1 / 2) (min 5 (s1.zoomLevel * delta))
  if newZ ≤ 1 then
    { s1 with zoomLevel := newZ, imageOffset := (0, 0), velocity := (0, 0) }
  else
    { s1 with zoomLevel := newZ,
              imageOffset := constrainImagePosition env s1.zoomLevel s1.imageOffset }

/-- Enhanced `resetZoom`: cancel momentum, zoom 1, offset and velocity zero. -/
def eresetZoom (s : EViewer) : EViewer :=
  { s with momentumActive := false, zoomLevel := 1,
           imageOffset := (0, 0), velocity := (0, 0) }

/-- Enhanced `startDrag`: ignored at zoom at most 1; otherwise capture the
anchor `pointer - offset`, reset velocity, cancel momentum. -/
def estartDrag (p : ℚ × ℚ) (t : ℚ) (s : EViewer) : EViewer :=
  if s.zoomLevel ≤ 1 then s
  else
    { s with isDragging := true, lastDragTime := t,
             dragStart := (p.1 - s.imageOffset.1, p.2 - s.imageOffset.2),
             lastDragPosition := p, velocity := (0, 0), momentumActive := false }

/-- Enhanced `drag`: ignored unless dragging at zoom above 1; estimates the
velocity from the move delta normalised to a 16 ms frame, and sets the offset
to `pointer - dragStart` constrained at the current zoom. -/
def edrag (env : ViewEnv) (p : ℚ × ℚ) (t : ℚ) (s : EViewer) : EViewer :=
  if s.isDragging = false ∨ s.zoomLevel ≤ 1 then s
  else
    let timeDelta := t - s.lastDragTime
    let v := if 0 < timeDelta then
        ((p.1 - s.lastDragPosition.1) / timeDelta * 16,
         (p.2 - s.lastDragPosition.2) / timeDelta * 16)
      else s.velocity
    { s with velocity := v,
             imageOffset := constrainImagePosition env s.zoomLevel
               (p.1 - s.dragStart.1, p.2 - s.dragStart.2),
             lastDragTime := t, lastDragPosition := p }

/-- Enhanced `endDrag`: stop dragging; start momentum when the released
velocity magnitude exceeds 0.5 (compared via squares). -/
def eendDrag (s : EViewer) : EViewer :=
  if s.isDragging = false then s
  else
    let s1 := { s with isDragging := false }
    if (1 / 2) * (1 / 2) < speedSq s1.velocity then
      { s1 with momentumActive := true }
    else s1

/-- One tick of `applyMomentum.momentumStep`: velocity is multiplied by the
friction coefficient 0.92, integrated into the offset (re-constrained), and
when the resulting magnitude no longer exceeds the 0.1 epsilon the animation
stops and the velocity is zeroed. -/
def momentumStep (env : ViewEnv) (s : EViewer) : EViewer :=
  let v := ((23 / 25) * s.velocity.1, (23 / 25) * s.velocity.2)
  let off := constrainImagePosition env s.zoomLevel
    (s.imageOffset.1 + v.1, s.imageOffset.2 + v.2)
  if (1 / 10) * (1 / 10) < speedSq v then
    { s with velocity := v, imageOffset := off }
  else
    { s with velocity := (0, 0), imageOffset := off, momentumActive := false }

/-- Enhanced `switchToImage`: in-range indices switch the carousel and reset
zoom and pan (via the image load handler); out-of-range indices leave the
whole state untouched. -/
def eswitchToImage (i : ℤ) (s : EViewer) : EViewer :=
  if 0 ≤ i ∧ i < (s.images.length : ℤ) then
    { eresetZoom s with
        currentImageIndex := i.toNat,
        imageSrc := s.images.getD i.toNat s.imageSrc }
  else s

/-- Operations of the enhanced viewer session. -/
inductive EOp
  | zoomIn
  | zoomOut
  | wheel (deltaYNeg : Bool)
  | reset
  | startDrag (p : ℚ × ℚ) (t : ℚ)
  | drag (p : ℚ × ℚ) (t : ℚ)
  | endDrag
  | momTick
  | switchTo (i : ℤ)

def estep (env : ViewEnv) : EOp → EViewer → EViewer
  | .zoomIn => ezoomInClick env
  | .zoomOut => ezoomOutClick env
  | .wheel d => ewheel env d
  | .reset => eresetZoom
  | .startDrag p t => estartDrag p t
  | .drag p t => edrag env p t
  | .endDrag => eendDrag
  | .momTick => momentumStep env
  | .switchTo i => eswitchToImage i

def runE (env : ViewEnv) (ops : List EOp) (s : EViewer) : EViewer :=
  ops.foldl (fun s op => estep env op s) s

/-- State of the basic viewer (galorio-static/js/artwork-detail.js). -/
structure SViewer where
  zoomLevel : ℚ
  imageOffset : ℚ × ℚ
  isDragging : Bool
  dragStart : ℚ × ℚ
  images : List String
  currentImageIndex : Nat
  imageSrc : String
deriving DecidableEq

/-- Basic zoom-in click: `zoomLevel = Math.min(zoomLevel * 1.3, 5)`. -/
def szoomIn (s : SViewer) : SViewer :=
  { s with zoomLevel := min (s.zoomLevel * (13 / 10)) 5 }

/-- Basic zoom-out click: `zoomLevel = Math.max(zoomLevel / 1.3, 0.5)`. -/
def szoomOut (s : SViewer) : SViewer :=
  { s with zoomLevel := max (s.zoomLevel / (13 / 10)) (1 / 2) }

/-- Basic wheel zoom: `Math.max(0.5, Math.min(5, zoomLevel * delta))`. -/
def swheel (deltaYNeg : Bool) (s : SViewer) : SViewer :=
  let delta : ℚ := if deltaYNeg then 11 / 10 else 9 / 10
  { s with zoomLevel := max (1 / 2) (min 5 (s.zoomLevel * delta)) }

/-- Basic `resetZoom`. -/
def sresetZoom (s : SViewer) : SViewer :=
  { s with zoomLevel := 1, imageOffset := (0, 0) }

/-- Basic `startDrag`: only active above zoom 1; captures the anchor. -/
def sstartDrag (p : ℚ × ℚ) (s : SViewer) : SViewer :=
  if 1 < s.zoomLevel then
    { s with isDragging := true,
             dragStart := (p.1 - s.imageOffset.1, p.2 - s.imageOffset.2) }
  else s

/-- Basic `drag` (artwork-detail.js lines 357-363): when dragging above
zoom 1 the offset is set to `pointer - dragStart` with no clamping. -/
def sdrag (p : ℚ × ℚ) (s : SViewer) : SViewer :=
  if s.isDragging = true ∧ 1 < s.zoomLevel then
    { s with imageOffset := (p.1 - s.dragStart.1, p.2 - s.dragStart.2) }
  else s

/-- Basic `endDrag`. -/
def sendDrag (s : SViewer) : SViewer :=
  { s with isDragging := false }

/-- Basic `switchToImage`: in-range indices switch the carousel and reset
zoom; out-of-range indices leave the whole state untouched. -/
def sswitchToImage (i : ℤ) (s : SViewer) : SViewer :=
  if 0 ≤ i ∧ i < (s.images.length : ℤ) then
    { s with currentImageIndex := i.toNat,
             imageSrc := s.images.getD i.toNat s.imageSrc,
             zoomLevel := 1, imageOffset := (0, 0) }
  else s

/-- Operations of the basic viewer session. -/
inductive SOp
  | zoomIn
  | zoomOut
  | wheel (deltaYNeg : Bool)
  | reset
  | startDrag (p : ℚ × ℚ)
  | drag (p : ℚ × ℚ)
  | endDrag
  | switchTo (i : ℤ)

def sstep : SOp → SViewer → SViewer
  | .zoomIn => szoomIn
  | .zoomOut => szoomOut
  | .wheel d => swheel d
  | .reset => sresetZoom
  | .startDrag p => sstartDrag p
  | .drag p => sdrag p
  | .endDrag => sendDrag
  | .switchTo i => sswitchToImage i

def runS (ops : List SOp) (s : SViewer) : SViewer :=
  ops.foldl (fun s op => sstep op s) s

/-- C10: switching to an out-of-range image index is a silent no-op in both
viewers: the index, the displayed source, and the zoom/pan state are all left
unchanged (the guard `index >= 0 && index < currentImages.length` simply
skips the whole body). -/
theorem switchToImage_out_of_range (s : SViewer) (e : EViewer) (i j : ℤ)
    (hi : i < 0 ∨ (s.images.length : ℤ) ≤ i)
    (hj : j < 0 ∨ (e.images.length : ℤ) ≤ j) :
    sswitchToImage i s = s ∧ eswitchToImage j e = e := by
  constructor
  · have h : ¬(0 ≤ i ∧ i < (s.images.length : ℤ)) := by omega
    simp [sswitchToImage, h]
  · have h : ¬(0 ≤ j ∧ j < (e.images.length : ℤ)) := by omega
    simp [eswitchToImage, h]

def demoSView : SViewer :=
  { zoomLevel := 1, imageOffset := (0, 0), isDragging := false,
    dragStart := (0, 0), images := ["a.jpg", "b.jpg"], currentImageIndex := 0,
    imageSrc := "a.jpg" }

def demoEView : EViewer :=
  { zoomLevel := 1, imageOffset := (0, 0), velocity := (0, 0),
    isDragging := false, dragStart := (0, 0), lastDragPosition := (0, 0),
    lastDragTime := 0, momentumActive := false, images := ["a.jpg"],
    currentImageIndex := 0, imageSrc := "a.jpg" }

/-- Witness for C10 at concrete out-of-range indices. -/
theorem switchToImage_out_of_range_witness :
    sswitchToImage 5 demoSView = demoSView ∧
    eswitchToImage (-1) demoEView = demoEView :=
  switchToImage_out_of_range demoSView demoEView 5 (-1)
    (Or.inr (by norm_num [demoSView])) (Or.inl (by norm_num))

theorem zoom_clamp_up {z : ℚ} (h1 : 1 / 2 ≤ z) :
    1 / 2 ≤ min (z * (13 / 10)) 5 ∧ min (z * (13 / 10)) 5 ≤ 5 := by
  refine ⟨le_min (by nlinarith) (by norm_num), min_le_right _ _⟩

theorem zoom_clamp_down {z : ℚ} (h2 : z ≤ 5) :
    1 / 2 ≤ max (z / (13 / 10)) (1 / 2) ∧ max (z / (13 / 10)) (1 / 2) ≤ 5 := by
  refine ⟨le_max_right _ _, max_le ?_ (by norm_num)⟩
  rw [div_le_iff₀ (by norm_num : (0 : ℚ) < 13 / 10)]
  linarith

theorem zoom_clamp_wheel (z delta : ℚ) :
    1 / 2 ≤ max (1 / 2) (min 5 (z * delta)) ∧
    max (1 / 2) (min 5 (z * delta)) ≤ 5 :=
  ⟨le_max_left _ _, max_le (by norm_num) (min_le_left _ _)⟩

theorem sstep_zoom_range (op : SOp) (s : SViewer)
    (h1 : 1 / 2 ≤ s.zoomLevel) (h2 : s.zoomLevel ≤ 5) :
    1 / 2 ≤ (sstep op s).zoomLevel ∧ (sstep op s).zoomLevel ≤ 5 := by
  cases op with
  | zoomIn => simpa [sstep, szoomIn] using zoom_clamp_up h1
  | zoomOut => simpa [sstep, szoomOut] using zoom_clamp_down h2
  | wheel d =>
    cases d
    · simpa [sstep, swheel] using zoom_clamp_wheel s.zoomLevel (9 / 10)
    · simpa [sstep, swheel] using zoom_clamp_wheel s.zoomLevel (11 / 10)
  | reset =>
    have hz : (sstep SOp.reset s).zoomLevel = 1 := rfl
    rw [hz]
    exact ⟨by norm_num, by norm_num⟩
  | startDrag p =>
    simp only [sstep, sstartDrag]
    split
    · exact ⟨h1, h2⟩
    · exact ⟨h1, h2⟩
  | drag p =>
    simp only [sstep, sdrag]
    split
    · exact ⟨h1, h2⟩
    · exact ⟨h1, h2⟩
  | endDrag => exact ⟨h1, h2⟩
  | switchTo i =>
    simp only [sstep, sswitchToImage]
    split
    · exact ⟨by norm_num, by norm_num⟩
    · exact ⟨h1, h2⟩

theorem estep_zoom_range (env : ViewEnv) (op : EOp) (s : EViewer)
    (h1 : 1 / 2 ≤ s.zoomLevel) (h2 : s.zoomLevel ≤ 5) :
    1 / 2 ≤ (estep env op s).zoomLevel ∧ (estep env op s).zoomLevel ≤ 5 := by
  cases op with
  | zoomIn => simpa [estep, ezoomInClick, cancelMomentum] using zoom_clamp_up h1
  | zoomOut => simpa [estep, ezoomOutClick, cancelMomentum] using zoom_clamp_down h2
  | wheel d =>
    have hz : (estep env (EOp.wheel d) s).zoomLevel =
        max (1 / 2) (min 5 (s.zoomLevel * (if d then (11 : ℚ) / 10 else 9 / 10))) := by
      simp only [estep, ewheel, cancelMomentum, apply_ite EViewer.zoomLevel, ite_self]
    rw [hz]
    exact zoom_clamp_wheel _ _
  | reset =>
    have hz : (estep env EOp.reset s).zoomLevel = 1 := rfl
    rw [hz]
    exact ⟨by norm_num, by norm_num⟩
  | startDrag p t =>
    have hz : (estep env (EOp.startDrag p t) s).zoomLevel = s.zoomLevel := by
      simp only [estep, estartDrag, apply_ite EViewer.zoomLevel, ite_self]
    rw [hz]
    exact ⟨h1, h2⟩
  | drag p t =>
    have hz : (estep env (EOp.drag p t) s).zoomLevel = s.zoomLevel := by
      simp only [estep, edrag, apply_ite EViewer.zoomLevel, ite_self]
    rw [hz]
    exact ⟨h1, h2⟩
  | endDrag =>
    have hz : (estep env EOp.endDrag s).zoomLevel = s.zoomLevel := by
      simp only [estep, eendDrag, apply_ite EViewer.zoomLevel, ite_self]
    rw [hz]
    exact ⟨h1, h2⟩
  | momTick =>
    have hz : (estep env EOp.momTick s).zoomLevel = s.zoomLevel := by
      simp only [estep, momentumStep, apply_ite EViewer.zoomLevel, ite_self]
    rw [hz]
    exact ⟨h1, h2⟩
  | switchTo i =>
    have hz : (estep env (EOp.switchTo i) s).zoomLevel =
        if 0 ≤ i ∧ i < (s.images.length : ℤ) then (1 : ℚ) else s.zoomLevel := by
      simp only [estep, eswitchToImage, eresetZoom, apply_ite EViewer.zoomLevel]
    rw [hz]
    split
    · exact ⟨by norm_num, by norm_num⟩
    · exact ⟨h1, h2⟩

theorem runS_zoom_range (ops : List SOp) : ∀ s : SViewer,
    1 / 2 ≤ s.zoomLevel → s.zoomLevel ≤ 5 →
    1 / 2 ≤ (runS ops s).zoomLevel ∧ (runS ops s).zoomLevel ≤ 5 := by
  induction ops with
  | nil => intro s h1 h2; exact ⟨h1, h2⟩
  | cons op ops ih =>
    intro s h1 h2
    have h := sstep_zoom_range op s h1 h2
    exact ih (sstep op s) h.1 h.2

theorem runE_zoom_range (env : ViewEnv) (ops : List EOp) : ∀ s : EViewer,
    1 / 2 ≤ s.zoomLevel → s.zoomLevel ≤ 5 →
    1 / 2 ≤ (runE env ops s).zoomLevel ∧ (runE env ops s).zoomLevel ≤ 5 := by
  induction ops with
  | nil => intro s h1 h2; exact ⟨h1, h2⟩
  | cons op ops ih =>
    intro s h1 h2
    have h := estep_zoom_range env op s h1 h2
    exact ih (estep env op s) h.1 h.2

/-- The constrained offset always satisfies the per-axis bound. -/
theorem constrain_abs_le (env : ViewEnv) (z : ℚ) (off : ℚ × ℚ) :
    |(constrainImagePosition env z off).1| ≤ maxOffsetX env z ∧
    |(constrainImagePosition env z off).2| ≤ maxOffsetY env z := by
  have hmx : (0 : ℚ) ≤ maxOffsetX env z := le_max_left _ _
  have hmy : (0 : ℚ) ≤ maxOffsetY env z := le_max_left _ _
  unfold constrainImagePosition
  split
  · exact ⟨by simpa using hmx, by simpa using hmy⟩
  · constructor
    · rw [abs_le]
      exact ⟨le_max_left _ _, max_le (by linarith) (min_le_left _ _)⟩
    · rw [abs_le]
      exact ⟨le_max_left _ _, max_le (by linarith) (min_le_left _ _)⟩

def cexSView : SViewer :=
  { zoomLevel := 1, imageOffset := (0, 0), isDragging := false,
    dragStart := (0, 0), images := ["a.jpg"], currentImageIndex := 0,
    imageSrc := "a.jpg" }

def cexEnv : ViewEnv := { imgW := 500, imgH := 500, viewW := 500, viewH := 500 }

/-- C2 counterexample: in the basic viewer, a legitimate zoom-in followed by
a drag leaves the pan offset at 10000 while the claimed bound
`maxOffsetX = max(0, (scaledWidth - viewportWidth)/2)` at the current zoom
(1.3) is 75 for a 500-wide image in a 500-wide viewport — the basic drag
handler applies no clamp, so the claimed invariant fails. -/
theorem viewer_offset_unclamped :
    maxOffsetX cexEnv
        (runS [SOp.zoomIn, SOp.startDrag (0, 0), SOp.drag (10000, 0)] cexSView).zoomLevel
      <
      |(runS [SOp.zoomIn, SOp.startDrag (0, 0), SOp.drag (10000, 0)] cexSView).imageOffset.1| := by
  norm_num [runS, sstep, szoomIn, sstartDrag, sdrag, cexSView, cexEnv, maxOffsetX]

/-- C2 amended: the zoom bound `0.5 ≤ zoomLevel ≤ 5` does hold for every
operation sequence in both viewers; and in the enhanced viewer every drag
move and every momentum tick routes the offset through
`constrainImagePosition`, so immediately after those operations the offset
satisfies the per-axis bound at the current zoom.  The basic viewer's drag
handler applies no clamp (see the counterexample), so the offset bound does
not hold for arbitrary sequences there. -/
theorem viewer_clamp_amended :
    (∀ (ops : List SOp) (s : SViewer), 1 / 2 ≤ s.zoomLevel → s.zoomLevel ≤ 5 →
      1 / 2 ≤ (runS ops s).zoomLevel ∧ (runS ops s).zoomLevel ≤ 5) ∧
    (∀ (env : ViewEnv) (ops : List EOp) (s : EViewer),
      1 / 2 ≤ s.zoomLevel → s.zoomLevel ≤ 5 →
      1 / 2 ≤ (runE env ops s).zoomLevel ∧ (runE env ops s).zoomLevel ≤ 5) ∧
    (∀ (env : ViewEnv) (p : ℚ × ℚ) (t : ℚ) (s : EViewer),
      s.isDragging = true → 1 < s.zoomLevel →
      |(edrag env p t s).imageOffset.1| ≤ maxOffsetX env (edrag env p t s).zoomLevel ∧
      |(edrag env p t s).imageOffset.2| ≤ maxOffsetY env (edrag env p t s).zoomLevel) ∧
    (∀ (env : ViewEnv) (s : EViewer),
      |(momentumStep env s).imageOffset.1| ≤
        maxOffsetX env (momentumStep env s).zoomLevel ∧
      |(momentumStep env s).imageOffset.2| ≤
        maxOffsetY env (momentumStep env s).zoomLevel) := by
  refine ⟨fun ops s h1 h2 => runS_zoom_range ops s h1 h2,
          fun env ops s h1 h2 => runE_zoom_range env ops s h1 h2, ?_, ?_⟩
  · intro env p t s hd hz
    have hcond : ¬(s.isDragging = false ∨ s.zoomLevel ≤ 1) := by
      push_neg
      exact ⟨by simp [hd], by linarith⟩
    simp only [edrag, if_neg hcond]
    exact constrain_abs_le env s.zoomLevel _
  · intro env s
    simp only [momentumStep]
    split
    · exact constrain_abs_le env s.zoomLevel _
    · exact constrain_abs_le env s.zoomLevel _

def demoDragging : EViewer :=
  { zoomLevel := 2, imageOffset := (0, 0), velocity := (0, 0),
    isDragging := true, dragStart := (0, 0), lastDragPosition := (0, 0),
    lastDragTime := 0, momentumActive := false, images := ["a.jpg"],
    currentImageIndex := 0, imageSrc := "a.jpg" }

/-- Witness for the amended C2 statement at concrete inputs. -/
theorem viewer_clamp_amended_witness :
    (1 / 2 ≤ (runS [SOp.zoomIn] cexSView).zoomLevel ∧
      (runS [SOp.zoomIn] cexSView).zoomLevel ≤ 5) ∧
    (1 / 2 ≤ (runE cexEnv [EOp.zoomOut] demoDragging).zoomLevel ∧
      (runE cexEnv [EOp.zoomOut] demoDragging).zoomLevel ≤ 5) ∧
    (|(edrag cexEnv (10000, 0) 16 demoDragging).imageOffset.1| ≤
        maxOffsetX cexEnv (edrag cexEnv (10000, 0) 16 demoDragging).zoomLevel ∧
      |(edrag cexEnv (10000, 0) 16 demoDragging).imageOffset.2| ≤
        maxOffsetY cexEnv (edrag cexEnv (10000, 0) 16 demoDragging).zoomLevel) ∧
    (|(momentumStep cexEnv demoDragging).imageOffset.1| ≤
        maxOffsetX cexEnv (momentumStep cexEnv demoDragging).zoomLevel ∧
      |(momentumStep cexEnv demoDragging).imageOffset.2| ≤
        maxOffsetY cexEnv (momentumStep cexEnv demoDragging).zoomLevel) :=
  ⟨viewer_clamp_amended.1 [SOp.zoomIn] cexSView (by norm_num [cexSView])
      (by norm_num [cexSView]),
   viewer_clamp_amended.2.1 cexEnv [EOp.zoomOut] demoDragging
      (by norm_num [demoDragging]) (by norm_num [demoDragging]),
   viewer_clamp_amended.2.2.1 cexEnv (10000, 0) 16 demoDragging rfl
      (by norm_num [demoDragging]),
   viewer_clamp_amended.2.2.2 cexEnv demoDragging⟩

theorem speedSq_nonneg (v : ℚ × ℚ) : 0 ≤ speedSq v := by
  unfold speedSq
  exact add_nonneg (mul_self_nonneg _) (mul_self_nonneg _)

theorem speedSq_scale (a : ℚ) (v : ℚ × ℚ) :
    speedSq (a * v.1, a * v.2) = a ^ 2 * speedSq v := by
  unfold speedSq
  ring

/-- Each momentum tick multiplies the squared speed by at most the squared
friction coefficient (the stop branch zeroes it outright). -/
theorem momentumStep_speedSq_le (env : ViewEnv) (u : EViewer) :
    speedSq (momentumStep env u).velocity ≤ (529 / 625) * speedSq u.velocity := by
  simp only [momentumStep, apply_ite EViewer.velocity]
  split
  · rw [speedSq_scale]
    norm_num
  · have h0 := speedSq_nonneg u.velocity
    have hz : speedSq ((0 : ℚ), (0 : ℚ)) = 0 := by norm_num [speedSq]
    rw [hz]
    nlinarith

theorem momentumStep_iterate_speedSq (env : ViewEnv) (s : EViewer) (n : ℕ) :
    speedSq ((momentumStep env)^[n] s).velocity ≤
      (529 / 625 : ℚ) ^ n * speedSq s.velocity := by
  induction n with
  | zero => simp
  | succ n ih =>
    rw [Function.iterate_succ_apply']
    calc speedSq (momentumStep env ((momentumStep env)^[n] s)).velocity
        ≤ (529 / 625) * speedSq ((momentumStep env)^[n] s).velocity :=
          momentumStep_speedSq_le env _
      _ ≤ (529 / 625) * ((529 / 625 : ℚ) ^ n * speedSq s.velocity) :=
          mul_le_mul_of_nonneg_left ih (by norm_num)
      _ = (529 / 625 : ℚ) ^ (n + 1) * speedSq s.velocity := by ring

/-- Powers of the squared friction coefficient eventually push any initial
squared speed below the squared stopping epsilon. -/
theorem exists_small_power (M : ℚ) (hM : 0 ≤ M) :
    ∃ N : ℕ, (529 / 625 : ℚ) ^ N * M ≤ 1 / 100 := by
  obtain ⟨N, hN⟩ := exists_pow_lt_of_lt_one
    (show (0 : ℚ) < (1 / 100) / (M + 1) by positivity)
    (show (529 / 625 : ℚ) < 1 by norm_num)
  refine ⟨N, ?_⟩
  have h1 : (529 / 625 : ℚ) ^ N * M ≤ ((1 / 100) / (M + 1)) * M :=
    mul_le_mul_of_nonneg_right (le_of_lt hN) hM
  have h2 : ((1 / 100) / (M + 1)) * M ≤ ((1 / 100) / (M + 1)) * (M + 1) :=
    mul_le_mul_of_nonneg_left (by linarith) (by positivity)
  have h3 : ((1 / 100 : ℚ) / (M + 1)) * (M + 1) = 1 / 100 := by
    field_simp
    ring
  linarith

theorem clamp_idem {m x : ℚ} (hm : 0 ≤ m) :
    max (-m) (min m (max (-m) (min m x))) = max (-m) (min m x) := by
  have h1 : max (-m) (min m x) ≤ m := max_le (by linarith) (min_le_left _ _)
  have h2 : -m ≤ max (-m) (min m x) := le_max_left _ _
  rw [min_eq_right h1, max_eq_right h2]

/-- Constraining an already-constrained offset changes nothing. -/
theorem constrain_idem (env : ViewEnv) (z : ℚ) (q : ℚ × ℚ) :
    constrainImagePosition env z (constrainImagePosition env z q) =
      constrainImagePosition env z q := by
  have hmx : (0 : ℚ) ≤ maxOffsetX env z := le_max_left _ _
  have hmy : (0 : ℚ) ≤ maxOffsetY env z := le_max_left _ _
  by_cases hz : z ≤ 1
  · simp [constrainImagePosition, hz]
  · simp only [constrainImagePosition, if_neg hz]
    rw [Prod.mk.injEq]
    exact ⟨clamp_idem hmx, clamp_idem hmy⟩

/-- A state with zero velocity, stopped animation, and a constrained offset
is a fixed point of the momentum tick. -/
theorem momentumStep_fixed (env : ViewEnv) (u : EViewer)
    (hv : u.velocity = (0, 0)) (hma : u.momentumActive = false)
    (hoff : ∃ q, u.imageOffset = constrainImagePosition env u.zoomLevel q) :
    momentumStep env u = u := by
  obtain ⟨q, hq⟩ := hoff
  have hv1 : u.velocity.1 = 0 := by rw [hv]
  have hv2 : u.velocity.2 = 0 := by rw [hv]
  have hcond : ¬((1 / 10) * (1 / 10) <
      speedSq ((23 / 25) * u.velocity.1, (23 / 25) * u.velocity.2)) := by
    rw [hv1, hv2]
    norm_num [speedSq]
  have hoffeq : constrainImagePosition env u.zoomLevel
      (u.imageOffset.1 + (23 / 25) * u.velocity.1,
        u.imageOffset.2 + (23 / 25) * u.velocity.2) = u.imageOffset := by
    rw [hv1, hv2]
    rw [show u.imageOffset.1 + (23 / 25) * (0 : ℚ) = u.imageOffset.1 by ring,
        show u.imageOffset.2 + (23 / 25) * (0 : ℚ) = u.imageOffset.2 by ring]
    rw [Prod.mk.eta, hq]
    exact constrain_idem env u.zoomLevel q
  simp only [momentumStep, if_neg hcond]
  rw [hoffeq, ← hv, ← hma]

/-- C7: from any state — in particular one whose velocity magnitude exceeds
the 0.5 start threshold — the momentum loop reaches, after finitely many
ticks, a state whose velocity has been set to `(0, 0)` (magnitude below the
0.1 epsilon, compared via squares), whose animation flag is cleared, and
which every further tick leaves completely unchanged, so no further pan
offset changes occur. -/
theorem momentum_terminates (env : ViewEnv) (s : EViewer)
    (h : (1 / 2) * (1 / 2) < speedSq s.velocity) :
    ∃ n : ℕ, 0 < n ∧
      ((momentumStep env)^[n] s).velocity = (0, 0) ∧
      speedSq ((momentumStep env)^[n] s).velocity ≤ (1 / 10) * (1 / 10) ∧
      ((momentumStep env)^[n] s).momentumActive = false ∧
      ∀ m : ℕ, (momentumStep env)^[m] ((momentumStep env)^[n] s) =
        (momentumStep env)^[n] s := by
  obtain ⟨N, hN⟩ := exists_small_power (speedSq s.velocity) (speedSq_nonneg _)
  have hsmall : speedSq ((momentumStep env)^[N] s).velocity ≤ 1 / 100 :=
    le_trans (momentumStep_iterate_speedSq env s N) hN
  set u := (momentumStep env)^[N] s with hu
  have hvsmall : speedSq ((23 / 25) * u.velocity.1, (23 / 25) * u.velocity.2) ≤
      (529 / 625) * (1 / 100) := by
    rw [speedSq_scale]
    nlinarith [speedSq_nonneg u.velocity]
  have hcond : ¬((1 / 10) * (1 / 10) <
      speedSq ((23 / 25) * u.velocity.1, (23 / 25) * u.velocity.2)) := by
    apply not_lt.mpr
    calc speedSq ((23 / 25) * u.velocity.1, (23 / 25) * u.velocity.2)
        ≤ (529 / 625) * (1 / 100) := hvsmall
      _ ≤ (1 / 10) * (1 / 10) := by norm_num
  have hstop : momentumStep env u =
      { u with velocity := (0, 0),
               imageOffset := constrainImagePosition env u.zoomLevel
                 (u.imageOffset.1 + (23 / 25) * u.velocity.1,
                   u.imageOffset.2 + (23 / 25) * u.velocity.2),
               momentumActive := false } := by
    simp only [momentumStep, if_neg hcond]
  have hw : (momentumStep env)^[N + 1] s = momentumStep env u := by
    rw [Function.iterate_succ_apply', hu]
  refine ⟨N + 1, Nat.succ_pos N, ?_, ?_, ?_, ?_⟩
  · rw [hw, hstop]
  · rw [hw, hstop]
    norm_num [speedSq]
  · rw [hw, hstop]
  · intro m
    rw [hw]
    apply Function.iterate_fixed
    apply momentumStep_fixed env
    · rw [hstop]
    · rw [hstop]
    · refine ⟨(u.imageOffset.1 + (23 / 25) * u.velocity.1,
        u.imageOffset.2 + (23 / 25) * u.velocity.2), ?_⟩
      rw [hstop]

def momEnv : ViewEnv := { imgW := 500, imgH := 500, viewW := 400, viewH := 400 }

def momDemo : EViewer :=
  { zoomLevel := 2, imageOffset := (0, 0), velocity := (3, 4),
    isDragging := false, dragStart := (0, 0), lastDragPosition := (0, 0),
    lastDragTime := 0, momentumActive := true, images := ["a.jpg"],
    currentImageIndex := 0, imageSrc := "a.jpg" }

/-- Witness for C7 from a concrete super-threshold velocity. -/
theorem momentum_terminates_witness :
    ∃ n : ℕ, 0 < n ∧
      ((momentumStep momEnv)^[n] momDemo).velocity = (0, 0) ∧
      speedSq ((momentumStep momEnv)^[n] momDemo).velocity ≤ (1 / 10) * (1 / 10) ∧
      ((momentumStep momEnv)^[n] momDemo).momentumActive = false ∧
      ∀ m : ℕ, (momentumStep momEnv)^[m] ((momentumStep momEnv)^[n] momDemo) =
        (momentumStep momEnv)^[n] momDemo :=
  momentum_terminates momEnv momDemo (by norm_num [speedSq, momDemo])

/-- C3: the logical record `"Black, Swan","ABS-0001","A ""great"" line\nsecond line"`
(two physical lines) parses to exactly the three fields `Black, Swan`,
`ABS-0001`, and `A "great" line` + newline + `second line`: the quoted comma
does not separate fields, the doubled quote yields one literal quote, and the
quoted newline is field content. -/
theorem parseCSVRecord_black_swan :
    parseCSVRecord ["\"Black, Swan\",\"ABS-0001\",\"A \"\"great\"\" line",
        "second line\""] =
      (["Black, Swan", "ABS-0001", "A \"great\" line\nsecond line"], []) := by
  decide
